import Mathlib

/-!
A shallow embedding of the message-buffer and port-lifecycle core of the
`mach-rust` repository (crates `mach-port`, `mach-core`, with constants from
the generated `mach-sys` bindings).

Modelling conventions:
* A `Vec<u8>` holding a mach message is modelled structurally: the first
  `size_of::<MessageStart>() = 28` bytes always hold the header and body
  (struct overlay at offset 0), which we keep as record fields
  (`header`, `msgh_descriptor_count`); the bytes after offset 28 are kept
  as a `List Nat` of byte values (`rest`).  `buffer.len()` is
  `28 + rest.length`, `buffer.capacity()` is the `capacity` field (in bytes).
* `Vec::reserve` guarantees only a lower bound on the resulting capacity;
  we model the guaranteed bound (`max capacity requested`).  No claim proved
  here depends on any over-allocation beyond that bound.
* Machine integers are `Nat` with an explicit `% 2 ^ w` wherever the source
  performs wrapping arithmetic on a fixed-width integer.
* A Rust panic (`unreachable!`, slice-index underflow, out-of-bounds raw
  pointer read) is modelled by `Option`: `none` is the fatal outcome.
* Kernel calls are external (spec section 6); their outcome (the returned
  status code, and for a receive the bytes the kernel wrote) enters the
  model as explicit parameters of the functions that invoke them.
-/

/-! ### Constants of the kernel ABI, consumed through the `mach-sys` bindings
(spec section 6: fixed values of the host kernel ABI). -/

/-- mach-sys: `MACH_PORT_NULL`. -/
def MACH_PORT_NULL : Nat := 0

/-- mach-sys (src/mach-sys/src/port.rs): `MACH_PORT_DEAD = !0` as a `u32`. -/
def MACH_PORT_DEAD : Nat := 2 ^ 32 - 1

/-- mach-sys (src/mach-sys/src/port.rs): `MACH_PORT_RIGHT_SEND = 0`. -/
def MACH_PORT_RIGHT_SEND : Nat := 0

/-- mach-sys (src/mach-sys/src/port.rs): `MACH_PORT_RIGHT_RECEIVE = 1`. -/
def MACH_PORT_RIGHT_RECEIVE : Nat := 1

/-- mach-sys (src/mach-sys/src/port.rs): `MACH_PORT_TYPE_SEND = 1 << (0 + 16)`. -/
def MACH_PORT_TYPE_SEND : Nat := 2 ^ 16

/-- mach-sys (src/mach-sys/src/port.rs): `MACH_PORT_TYPE_RECEIVE = 1 << (1 + 16)`. -/
def MACH_PORT_TYPE_RECEIVE : Nat := 2 ^ 17

/-- Kernel ABI right-disposition tag `MACH_MSG_TYPE_MOVE_RECEIVE`. -/
def MACH_MSG_TYPE_MOVE_RECEIVE : Nat := 16

/-- Kernel ABI right-disposition tag `MACH_MSG_TYPE_MOVE_SEND`. -/
def MACH_MSG_TYPE_MOVE_SEND : Nat := 17

/-- Kernel ABI right-disposition tag `MACH_MSG_TYPE_MOVE_SEND_ONCE`. -/
def MACH_MSG_TYPE_MOVE_SEND_ONCE : Nat := 18

/-- Kernel ABI right-disposition tag `MACH_MSG_TYPE_COPY_SEND`. -/
def MACH_MSG_TYPE_COPY_SEND : Nat := 19

/-- Kernel ABI right-disposition tag `MACH_MSG_TYPE_MAKE_SEND`. -/
def MACH_MSG_TYPE_MAKE_SEND : Nat := 20

/-- Kernel ABI right-disposition tag `MACH_MSG_TYPE_MAKE_SEND_ONCE`. -/
def MACH_MSG_TYPE_MAKE_SEND_ONCE : Nat := 21

/-- Kernel ABI `MACH_MSG_TYPE_PORT_SEND` (equals `MACH_MSG_TYPE_MOVE_SEND`). -/
def MACH_MSG_TYPE_PORT_SEND : Nat := 17

/-- Kernel ABI: the complex bit of `msgh_bits` (`MACH_MSGH_BITS_COMPLEX = 0x80000000`). -/
def MACH_MSGH_BITS_COMPLEX : Nat := 2 ^ 31

/-- Kernel ABI descriptor type tag `MACH_MSG_PORT_DESCRIPTOR = 0`. -/
def MACH_MSG_PORT_DESCRIPTOR : Nat := 0

/-- Kernel ABI descriptor type tag `MACH_MSG_OOL_DESCRIPTOR = 1`. -/
def MACH_MSG_OOL_DESCRIPTOR : Nat := 1

/-- Kernel ABI descriptor type tag `MACH_MSG_OOL_PORTS_DESCRIPTOR = 2`. -/
def MACH_MSG_OOL_PORTS_DESCRIPTOR : Nat := 2

/-- Kernel ABI descriptor type tag `MACH_MSG_OOL_VOLATILE_DESCRIPTOR = 3`. -/
def MACH_MSG_OOL_VOLATILE_DESCRIPTOR : Nat := 3

/-- Kernel ABI status `KERN_SUCCESS = 0`. -/
def KERN_SUCCESS : Nat := 0

/-- Kernel ABI status `KERN_INVALID_RIGHT = 17`. -/
def KERN_INVALID_RIGHT : Nat := 17

/-- Kernel ABI status `MACH_SEND_TIMED_OUT = 0x10000004`. -/
def MACH_SEND_TIMED_OUT : Nat := 0x10000004

/-- Kernel ABI status `MACH_RCV_TIMED_OUT = 0x10004003`. -/
def MACH_RCV_TIMED_OUT : Nat := 0x10004003

/-- Byte width of `mach_msg_header_t` (six 32-bit fields). -/
def sizeOfMachMsgHeader : Nat := 24

/-- Byte width of `mach_msg_body_t` (one 32-bit field). -/
def sizeOfMachMsgBody : Nat := 4

/-- Byte width of the private `MessageStart` struct of src/mach-port/src/msg.rs
(`mach_msg_header_t` followed by `mach_msg_body_t`). -/
def sizeOfMessageStart : Nat := 28

/-- Byte width of `mach_msg_port_descriptor_t`. -/
def sizeOfMachMsgPortDescriptor : Nat := 12

/-- Byte width of `mach_msg_ool_descriptor_t` (64-bit user space). -/
def sizeOfMachMsgOolDescriptor : Nat := 16

/-- Byte width of `mach_msg_ool_ports_descriptor_t` (64-bit user space). -/
def sizeOfMachMsgOolPortsDescriptor : Nat := 16

/-- Byte width of the union `mach_msg_descriptor_t` (the widest member). -/
def sizeOfMachMsgDescriptor : Nat := 16

/-- Byte width of `mach_msg_trailer_t` (two 32-bit fields). -/
def sizeOfMachMsgTrailer : Nat := 8

/-! ### Data model: the message buffer (src/mach-port/src/msg.rs) -/

/-- The fields of `mach_msg_header_t`, each a 32-bit value. -/
structure MachMsgHeader where
  msgh_bits : Nat
  msgh_size : Nat
  msgh_remote_port : Nat
  msgh_local_port : Nat
  msgh_voucher_port : Nat
  msgh_id : Nat
deriving Repr, DecidableEq

/-- `MsgBuffer` of src/mach-port/src/msg.rs.  The underlying `Vec<u8>` is
modelled by the structural header overlay (`header`, `msgh_descriptor_count`,
i.e. the `MessageStart` occupying bytes `[0, 28)`), the bytes after the
`MessageStart` (`rest`, so `buffer.len() = 28 + rest.length`) and the
allocation size in bytes (`capacity`). -/
structure MsgBuffer where
  header : MachMsgHeader
  msgh_descriptor_count : Nat
  rest : List Nat
  capacity : Nat
  capacity_inline : Nat
  capacity_descriptors : Nat
deriving Repr, DecidableEq

/-- `MsgBuffer::new`: a buffer sized for header plus trailer, holding the
canonical empty `MessageStart`. -/
def MsgBuffer.new : MsgBuffer :=
  { header :=
      { msgh_bits := MACH_MSG_TYPE_COPY_SEND
        msgh_size := sizeOfMessageStart
        msgh_remote_port := MACH_PORT_NULL
        msgh_local_port := MACH_PORT_NULL
        msgh_voucher_port := MACH_PORT_NULL
        msgh_id := 0 }
    msgh_descriptor_count := 0
    rest := []
    capacity := sizeOfMessageStart + sizeOfMachMsgTrailer
    capacity_inline := 0
    capacity_descriptors := 0 }

/-! ### Descriptor decoding (src/mach-port/src/msg.rs, `MsgDescriptor` and the
descriptor iterators) -/

/-- Reading the `type` bitfield of the `mach_msg_type_descriptor_t` overlay at
the start of a descriptor record: bits 24 to 31 of the little-endian 32-bit
word at byte offset 8, i.e. byte 11 of the record.  `none` models an
out-of-bounds raw-pointer read. -/
def MsgDescriptor.type_ (bytes : List Nat) : Option Nat :=
  bytes[11]?.map (· % 256)

/-- `MsgDescriptor::size`: the byte width of a descriptor record as a function
of its type tag; the `unreachable!()` arm is `none`. -/
def MsgDescriptor.size (bytes : List Nat) : Option Nat :=
  match MsgDescriptor.type_ bytes with
  | none => none
  | some t =>
    if t = MACH_MSG_PORT_DESCRIPTOR then some sizeOfMachMsgPortDescriptor
    else if t = MACH_MSG_OOL_DESCRIPTOR then some sizeOfMachMsgOolDescriptor
    else if t = MACH_MSG_OOL_PORTS_DESCRIPTOR then some sizeOfMachMsgOolPortsDescriptor
    else if t = MACH_MSG_OOL_VOLATILE_DESCRIPTOR then some sizeOfMachMsgOolDescriptor
    else none

/-- The four recognized descriptor kinds (`MsgDescriptorKind` of the source);
each carries the bytes of its record, standing in for the borrowed view. -/
inductive MsgDescriptorKind where
  | port (d : List Nat)
  | ool (d : List Nat)
  | oolPorts (d : List Nat)
  | oolVolatile (d : List Nat)
deriving Repr, DecidableEq

/-- `MsgDescriptor::kind`: classify a record by its type tag; the
`unreachable!()` arm is `none`. -/
def MsgDescriptor.kind (bytes : List Nat) : Option MsgDescriptorKind :=
  match MsgDescriptor.type_ bytes with
  | none => none
  | some t =>
    if t = MACH_MSG_PORT_DESCRIPTOR then some (MsgDescriptorKind.port bytes)
    else if t = MACH_MSG_OOL_DESCRIPTOR then some (MsgDescriptorKind.ool bytes)
    else if t = MACH_MSG_OOL_PORTS_DESCRIPTOR then some (MsgDescriptorKind.oolPorts bytes)
    else if t = MACH_MSG_OOL_VOLATILE_DESCRIPTOR then some (MsgDescriptorKind.oolVolatile bytes)
    else none

/-- `MsgDescriptor::kind_mut`: same match as `kind`, yielding the mutable view
(identical classification). -/
def MsgDescriptor.kind_mut (bytes : List Nat) : Option MsgDescriptorKind :=
  match MsgDescriptor.type_ bytes with
  | none => none
  | some t =>
    if t = MACH_MSG_PORT_DESCRIPTOR then some (MsgDescriptorKind.port bytes)
    else if t = MACH_MSG_OOL_DESCRIPTOR then some (MsgDescriptorKind.ool bytes)
    else if t = MACH_MSG_OOL_PORTS_DESCRIPTOR then some (MsgDescriptorKind.oolPorts bytes)
    else if t = MACH_MSG_OOL_VOLATILE_DESCRIPTOR then some (MsgDescriptorKind.oolVolatile bytes)
    else none

/-- A full walk of `MsgDescriptorIter`: starting at the given bytes, yield
`count` records, each record being the `size`-byte slice at the current
position, then advance by that size.  `none` models the fatal outcomes of the
walk: an unrecognized type tag (`unreachable!()` inside `size`) or a read past
the end of the buffer. -/
def descChain : Nat → List Nat → Option (List (List Nat))
  | 0, _ => some []
  | n + 1, bytes =>
    match MsgDescriptor.size bytes with
    | none => none
    | some sz =>
      if sz ≤ bytes.length then
        match descChain n (bytes.drop sz) with
        | none => none
        | some tail => some (bytes.take sz :: tail)
      else none

/-- `Msg::descriptor_count`: reads `msgh_descriptor_count` directly. -/
def Msg.descriptor_count (b : MsgBuffer) : Nat :=
  b.msgh_descriptor_count

/-- `Msg::descriptors`: the sequence of descriptor records produced by walking
the chain that starts right after the `MessageStart`.  (`Msg` is the borrowed
view every `MsgBuffer` derefs to; here it is the buffer itself.) -/
def Msg.descriptors (b : MsgBuffer) : Option (List (List Nat)) :=
  descChain b.msgh_descriptor_count b.rest

/-- `Msg::descriptors_byte_len`: walk the full chain and measure how far the
iterator pointer advanced (the sum of the record widths). -/
def Msg.descriptors_byte_len (b : MsgBuffer) : Option Nat :=
  (Msg.descriptors b).map (fun l => (l.map List.length).sum)

/-- `Msg::inline_data`: the slice `[28 + descriptors_byte_len, msgh_size)` of
the buffer.  The guard models the `usize` subtraction underflow and the
`debug_assert!(len >= msgh_size)` of the source: outside it the source is a
panic or an out-of-bounds slice. -/
def Msg.inline_data (b : MsgBuffer) : Option (List Nat) :=
  match Msg.descriptors_byte_len b with
  | none => none
  | some dbl =>
    if sizeOfMessageStart + dbl ≤ b.header.msgh_size ∧
        b.header.msgh_size ≤ sizeOfMessageStart + b.rest.length then
      some ((b.rest.drop dbl).take (b.header.msgh_size - (sizeOfMessageStart + dbl)))
    else none

/-- `Msg::complex`: the complex bit of `msgh_bits`. -/
def Msg.complex (b : MsgBuffer) : Bool :=
  b.header.msgh_bits &&& MACH_MSGH_BITS_COMPLEX != 0

example : Msg.inline_data MsgBuffer.new = some [] := by decide
example : Msg.descriptors MsgBuffer.new = some [] := by decide
example : Msg.complex MsgBuffer.new = false := by decide

/-! ### Encode-side mutators (src/mach-port/src/msg.rs, `impl MsgBuffer`) -/

/-- `MsgBuffer::update_reservation`: recompute the wanted total capacity and
`Vec::reserve` the difference when it exceeds the current length
(`checked_sub` is `none` when the length already exceeds the total).
`Vec::reserve(additional)` guarantees `capacity >= len + additional`;
we model that guaranteed bound. -/
def MsgBuffer.update_reservation (b : MsgBuffer) : MsgBuffer :=
  let total_capacity := sizeOfMessageStart
    + b.capacity_descriptors * sizeOfMachMsgDescriptor
    + b.capacity_inline + sizeOfMachMsgTrailer
  if sizeOfMessageStart + b.rest.length ≤ total_capacity then
    { b with capacity := max b.capacity total_capacity }
  else b

/-- `MsgBuffer::reserve_inline_data`: raise the inline high-water mark to
current inline length plus `additional` when it is below that.  Calls
`inline_data()`, whose fatal outcomes propagate. -/
def MsgBuffer.reserve_inline_data (b : MsgBuffer) (additional : Nat) : Option MsgBuffer :=
  match Msg.inline_data b with
  | none => none
  | some inl =>
    if b.capacity_inline < inl.length + additional then
      some (MsgBuffer.update_reservation { b with capacity_inline := inl.length + additional })
    else some b

/-- `MsgBuffer::reserve_descriptors`: raise the descriptor high-water mark to
current descriptor count plus `additional` when it is below that.
(`self.descriptors().len()` is the iterator's `rem_count`, i.e. the stored
descriptor count — no chain walk happens.) -/
def MsgBuffer.reserve_descriptors (b : MsgBuffer) (additional : Nat) : MsgBuffer :=
  if b.capacity_descriptors < b.msgh_descriptor_count + additional then
    MsgBuffer.update_reservation
      { b with capacity_descriptors := b.msgh_descriptor_count + additional }
  else b

/-- `MsgBuffer::extend_inline_data`: grow the inline high-water mark if needed,
append the bytes at the end of the buffer, and bump `msgh_size` (a `u32`, so
the bump wraps modulo `2 ^ 32`). -/
def MsgBuffer.extend_inline_data (b : MsgBuffer) (data : List Nat) : Option MsgBuffer :=
  match Msg.inline_data b with
  | none => none
  | some inl =>
    let final_inline_len := inl.length + data.length
    let b1 :=
      if b.capacity_inline < final_inline_len then
        MsgBuffer.update_reservation { b with capacity_inline := final_inline_len }
      else b
    some { b1 with
      rest := b1.rest ++ data
      header := { b1.header with
        msgh_size := (b1.header.msgh_size + data.length % 2 ^ 32) % 2 ^ 32 } }

/-- `MsgBuffer::append_descriptor`: splice the record's bytes in right after
the last existing descriptor, bump the descriptor count (`u32`), set the
complex bit, bump `msgh_size` by the record width (`u32`), and raise the
descriptor high-water mark when the new count exceeds it. -/
def MsgBuffer.append_descriptor (b : MsgBuffer) (record : List Nat) : Option MsgBuffer :=
  match Msg.descriptors_byte_len b with
  | none => none
  | some dbl =>
    let b1 := { b with
      rest := b.rest.take dbl ++ record ++ b.rest.drop dbl
      msgh_descriptor_count := (b.msgh_descriptor_count + 1) % 2 ^ 32
      header := { b.header with
        msgh_bits := b.header.msgh_bits ||| MACH_MSGH_BITS_COMPLEX
        msgh_size := (b.header.msgh_size + record.length % 2 ^ 32) % 2 ^ 32 } }
    if b1.capacity_descriptors < b1.msgh_descriptor_count then
      some (MsgBuffer.update_reservation
        { b1 with capacity_descriptors := b1.msgh_descriptor_count })
    else some b1

/-- Little-endian bytes of a 32-bit word. -/
def le32 (n : Nat) : List Nat :=
  [n % 256, n / 2 ^ 8 % 256, n / 2 ^ 16 % 256, n / 2 ^ 24 % 256]

/-- The twelve bytes of a `mach_msg_port_descriptor_t` as built by
`copy_right_raw` and `move_right_raw`: `name`, `pad1 = 0`, then the bitfield
word holding `pad2 : 16` (zeroed), `disposition : 8` at bits 16 to 23 and
`type : 8` at bits 24 to 31 (the setters mask their operands to 8 bits). -/
def mach_msg_port_descriptor_bytes (name disposition : Nat) : List Nat :=
  le32 (name % 2 ^ 32) ++ le32 0
    ++ le32 (disposition % 2 ^ 8 * 2 ^ 16 + MACH_MSG_PORT_DESCRIPTOR % 2 ^ 8 * 2 ^ 24)

/-- `PortCopyMode` of src/mach-port/src/msg.rs. -/
inductive PortCopyMode where
  | send
  | makeSend
  | makeSendOnce
deriving Repr, DecidableEq

/-- `PortMoveMode` of src/mach-port/src/msg.rs. -/
inductive PortMoveMode where
  | receive
  | send
  | sendOnce
deriving Repr, DecidableEq

/-- The disposition tag written by `copy_right_raw` for each copy mode. -/
def PortCopyMode.disposition : PortCopyMode → Nat
  | .send => MACH_MSG_TYPE_COPY_SEND
  | .makeSend => MACH_MSG_TYPE_MAKE_SEND
  | .makeSendOnce => MACH_MSG_TYPE_MAKE_SEND_ONCE

/-- The disposition tag written by `move_right_raw` for each move mode. -/
def PortMoveMode.disposition : PortMoveMode → Nat
  | .receive => MACH_MSG_TYPE_MOVE_RECEIVE
  | .send => MACH_MSG_TYPE_MOVE_SEND
  | .sendOnce => MACH_MSG_TYPE_MOVE_SEND_ONCE

/-- `MsgBuffer::copy_right_raw` (and `copy_right`, which passes
`port.as_raw_port()`): append a port descriptor carrying the raw name and the
copy-mode disposition. -/
def MsgBuffer.copy_right_raw (b : MsgBuffer) (mode : PortCopyMode) (port : Nat) :
    Option MsgBuffer :=
  MsgBuffer.append_descriptor b (mach_msg_port_descriptor_bytes port mode.disposition)

/-- `MsgBuffer::move_right_raw` (and `move_right`, which passes
`port.into_raw_port()`): append a port descriptor carrying the raw name and the
move-mode disposition. -/
def MsgBuffer.move_right_raw (b : MsgBuffer) (mode : PortMoveMode) (port : Nat) :
    Option MsgBuffer :=
  MsgBuffer.append_descriptor b (mach_msg_port_descriptor_bytes port mode.disposition)

/-! ### Reset (src/mach-port/src/msg.rs, `MsgBuffer::reset` and
`MsgImpl::reset_on_send for MsgBuffer`) -/

/-- `MsgBuffer::reset`: truncate the buffer back to the `MessageStart` and
rewrite the canonical empty header in place; capacity and the two high-water
marks are untouched. -/
def MsgBuffer.reset (b : MsgBuffer) : MsgBuffer :=
  { b with
    rest := []
    msgh_descriptor_count := 0
    header :=
      { msgh_bits := MACH_MSG_TYPE_COPY_SEND
        msgh_size := sizeOfMessageStart
        msgh_remote_port := MACH_PORT_NULL
        msgh_local_port := MACH_PORT_NULL
        msgh_voucher_port := MACH_PORT_NULL
        msgh_id := 0 } }

/-- `<MsgBuffer as MsgImpl>::reset_on_send`: the post-send reset path; its body
is the same truncate-and-rewrite as `reset`. -/
def MsgBuffer.reset_on_send (b : MsgBuffer) : MsgBuffer :=
  { b with
    rest := []
    msgh_descriptor_count := 0
    header :=
      { msgh_bits := MACH_MSG_TYPE_COPY_SEND
        msgh_size := sizeOfMessageStart
        msgh_remote_port := MACH_PORT_NULL
        msgh_local_port := MACH_PORT_NULL
        msgh_voucher_port := MACH_PORT_NULL
        msgh_id := 0 } }

/-! ### Mutation sequences -/

/-- One encode-side mutation of a `MsgBuffer`. -/
inductive MsgOp where
  | extendInline (data : List Nat)
  | copyRight (mode : PortCopyMode) (port : Nat)
  | moveRight (mode : PortMoveMode) (port : Nat)
  | reserveInline (n : Nat)
  | reserveDescriptors (n : Nat)
deriving Repr, DecidableEq

/-- Apply one mutation; `none` is a panic of the source. -/
def MsgBuffer.applyOp (b : MsgBuffer) : MsgOp → Option MsgBuffer
  | .extendInline data => MsgBuffer.extend_inline_data b data
  | .copyRight mode port => MsgBuffer.copy_right_raw b mode port
  | .moveRight mode port => MsgBuffer.move_right_raw b mode port
  | .reserveInline n => MsgBuffer.reserve_inline_data b n
  | .reserveDescriptors n => some (MsgBuffer.reserve_descriptors b n)

/-- Apply a sequence of mutations left to right. -/
def MsgBuffer.applyOps (b : MsgBuffer) (ops : List MsgOp) : Option MsgBuffer :=
  ops.foldl (fun ob op => ob.bind (fun b => MsgBuffer.applyOp b op)) (some b)

/-- The inline bytes an operation appends. -/
def MsgOp.inlineBytes : MsgOp → List Nat
  | .extendInline data => data
  | _ => []

/-- The descriptor record an operation appends, if any. -/
def MsgOp.descRecord : MsgOp → Option (List Nat)
  | .copyRight mode port => some (mach_msg_port_descriptor_bytes port mode.disposition)
  | .moveRight mode port => some (mach_msg_port_descriptor_bytes port mode.disposition)
  | _ => none

/-- Concatenation of all inline chunks appended by a sequence, in order. -/
def opsInlineBytes (ops : List MsgOp) : List Nat :=
  (ops.map MsgOp.inlineBytes).flatten

/-- All descriptor records appended by a sequence, in order. -/
def opsDescRecords (ops : List MsgOp) : List (List Nat) :=
  ops.filterMap MsgOp.descRecord

example :
    (MsgBuffer.applyOps MsgBuffer.new
        [MsgOp.extendInline [1, 2], MsgOp.copyRight PortCopyMode.send 5,
         MsgOp.extendInline [3]]).map (fun b => Msg.inline_data b) =
      some (some [1, 2, 3]) := by decide

example :
    (MsgBuffer.applyOps MsgBuffer.new
        [MsgOp.extendInline [1, 2], MsgOp.copyRight PortCopyMode.send 5]).map
        (fun b => b.header.msgh_size) = some 42 := by decide

/-! ### Error mapping (src/mach-core/src/error.rs) -/

/-- The `io::ErrorKind` values this code produces. -/
inductive IoErrorKind where
  | timedOut
  | other
deriving Repr, DecidableEq

/-- An `io::Error` as built by `rust_from_mach_error`: a kind plus the wrapped
raw status code. -/
structure IoError where
  kind : IoErrorKind
  code : Nat
deriving Repr, DecidableEq

/-- `rust_from_mach_error`: the two timed-out statuses map to `TimedOut`,
everything else to `Other`; the raw code is carried along.  Status codes are
taken at their `u32` value (the source matches on `code as u32`). -/
def rust_from_mach_error (code : Nat) : IoError :=
  { kind :=
      if code = MACH_SEND_TIMED_OUT then IoErrorKind.timedOut
      else if code = MACH_RCV_TIMED_OUT then IoErrorKind.timedOut
      else IoErrorKind.other
    code := code }

/-- Outcome of the `mach_call!` macro: `0` is `Ok(())`, any other status is
`Err(rust_from_mach_error(status))`. -/
def mach_call (status : Nat) : Except IoError Unit :=
  if status = 0 then Except.ok () else Except.error (rust_from_mach_error status)

/-! ### Port lifecycle (src/mach-port/src/port.rs) -/

/-- `Port`: a raw capability name plus which rights this value owns. -/
structure Port where
  port : Nat
  has_receive : Bool
  has_send : Bool
deriving Repr, DecidableEq

/-- One `mach_port_mod_refs` invocation issued while dropping a `Port`. -/
structure ReleaseCall where
  port : Nat
  right : Nat
  delta : Int
deriving Repr, DecidableEq

/-- What dropping a `Port` did: the reference-count decrements it issued, in
order, and the status codes it reported through the diagnostic log. -/
structure DropTrace where
  calls : List ReleaseCall
  logged : List Nat
deriving Repr, DecidableEq

/-- `impl Drop for Port`: one decrement per held right.  The receive-right
release logs any non-success status (via `mach_call!(log: ...)`, the error
then discarded); the send-right release treats `KERN_SUCCESS` and
`KERN_INVALID_RIGHT` (receive right already gone) as success and logs any
other status.  The kernel statuses of the two calls are the parameters.
The body is total: no branch panics. -/
def Port.drop (p : Port) (receive_status send_status : Nat) : DropTrace :=
  let receive_part :=
    if p.has_receive then
      ([{ port := p.port, right := MACH_PORT_RIGHT_RECEIVE, delta := -1 : ReleaseCall }],
        if receive_status ≠ 0 then [receive_status] else [])
    else ([], [])
  let send_part :=
    if p.has_send then
      ([{ port := p.port, right := MACH_PORT_RIGHT_SEND, delta := -1 : ReleaseCall }],
        if send_status = KERN_SUCCESS ∨ send_status = KERN_INVALID_RIGHT then []
        else [send_status])
    else ([], [])
  { calls := receive_part.1 ++ send_part.1
    logged := receive_part.2 ++ send_part.2 }

/-- `Port::from_raw_port`: query the kernel for the right-type bitmask of the
raw name and record which rights it holds.  The query's kernel outcome
(status and bitmask) is external and enters as parameters. -/
def Port.from_raw_port (port : Nat) (query_status ty : Nat) : Except IoError Port :=
  match mach_call query_status with
  | Except.error e => Except.error e
  | Except.ok _ =>
    Except.ok
      { port := port
        has_send := ty &&& MACH_PORT_TYPE_SEND != 0
        has_receive := ty &&& MACH_PORT_TYPE_RECEIVE != 0 }

/-- `Port::send`: bind the message's remote port to this port's raw name,
invoke the kernel transfer (its status is the `status` parameter),
unconditionally clear the remote port again, then — only on success — reset
the buffer via `reset_on_send`.  The returned pair is the buffer as the caller
sees it afterwards and the call's result. -/
def Port.send (p : Port) (msg : MsgBuffer) (status : Nat) :
    MsgBuffer × Except IoError Unit :=
  let msg1 := { msg with header := { msg.header with msgh_remote_port := p.port } }
  let msg2 := { msg1 with header := { msg1.header with msgh_remote_port := MACH_PORT_NULL } }
  match mach_call status with
  | Except.error e => (msg2, Except.error e)
  | Except.ok _ => (MsgBuffer.reset_on_send msg2, Except.ok ())

/-- What the kernel wrote into the buffer during a receive: its status, and on
success the `MessageStart` overlay and following bytes it stored (external,
spec section 6). -/
structure RecvOutcome where
  status : Nat
  header : MachMsgHeader
  msgh_descriptor_count : Nat
  bytes : List Nat
deriving Repr, DecidableEq

/-- `Port::recv`: invoke the kernel receive into the buffer's full capacity;
on success set the logical length to the header's reported size; on failure
return the error with the logical buffer state unchanged. -/
def Port.recv (_p : Port) (msg : MsgBuffer) (k : RecvOutcome) :
    MsgBuffer × Except IoError Unit :=
  match mach_call k.status with
  | Except.error e => (msg, Except.error e)
  | Except.ok _ =>
    let written := { msg with
      header := k.header
      msgh_descriptor_count := k.msgh_descriptor_count
      rest := k.bytes }
    ({ written with
        rest := written.rest.take (written.header.msgh_size - sizeOfMessageStart) },
      Except.ok ())

/-- `convert_timeout`: checked u64 seconds-to-milliseconds conversion plus the
whole subsecond milliseconds, clamped to `i32::MAX`; any checked-arithmetic
overflow saturates to `i32::MAX`.  A `Duration` is its `u64` second count and
its sub-second nanoseconds (`subsec_millis = nanos / 1000000`). -/
def convert_timeout (secs nanos : Nat) : Nat :=
  let prod := if secs * 1000 < 2 ^ 64 then some (secs * 1000) else none
  let total :=
    match prod with
    | none => none
    | some x =>
      if x + nanos / 1000000 < 2 ^ 64 then some (x + nanos / 1000000) else none
  let filtered :=
    match total with
    | none => none
    | some x => if x ≤ 2147483647 then some x else none
  filtered.getD 2147483647

example : convert_timeout 2 500000000 = 2500 := by decide
example : convert_timeout 3000000 0 = 2147483647 := by decide

/-! ### Port descriptors, decode side (src/mach-port/src/msg.rs,
`impl MsgPortDescriptor`) -/

/-- The typed overlay `MsgPortDescriptor` over one port-kind record: the
fields of `mach_msg_port_descriptor_t`. -/
structure MsgPortDescriptor where
  name : Nat
  pad1 : Nat
  disposition : Nat
  type_ : Nat
deriving Repr, DecidableEq

/-- `MsgPortDescriptor::take_raw_port`: `None` when the embedded name is NULL
or DEAD; otherwise yield the name and overwrite the field with NULL.  The
second component is the record afterwards. -/
def MsgPortDescriptor.take_raw_port (d : MsgPortDescriptor) :
    Option Nat × MsgPortDescriptor :=
  if d.name = MACH_PORT_NULL ∨ d.name = MACH_PORT_DEAD then (none, d)
  else (some d.name, { d with name := MACH_PORT_NULL })

/-- `MsgPortDescriptor::take_port`: take the raw name out and, when one was
present, adopt it via `Port::from_raw_port` (whose kernel outcome enters as
parameters); with no name present the result is `Ok(None)` and the kernel is
not consulted. -/
def MsgPortDescriptor.take_port (d : MsgPortDescriptor) (query_status ty : Nat) :
    Except IoError (Option Port) × MsgPortDescriptor :=
  match MsgPortDescriptor.take_raw_port d with
  | (some raw, d1) =>
    match Port.from_raw_port raw query_status ty with
    | Except.ok p => (Except.ok (some p), d1)
    | Except.error e => (Except.error e, d1)
  | (none, d1) => (Except.ok none, d1)

/-! ### Basic facts about `update_reservation` -/

@[simp]
theorem MsgBuffer.update_reservation_rest (b : MsgBuffer) :
    (MsgBuffer.update_reservation b).rest = b.rest := by
  unfold MsgBuffer.update_reservation
  dsimp only
  split <;> rfl

@[simp]
theorem MsgBuffer.update_reservation_header (b : MsgBuffer) :
    (MsgBuffer.update_reservation b).header = b.header := by
  unfold MsgBuffer.update_reservation
  dsimp only
  split <;> rfl

@[simp]
theorem MsgBuffer.update_reservation_count (b : MsgBuffer) :
    (MsgBuffer.update_reservation b).msgh_descriptor_count = b.msgh_descriptor_count := by
  unfold MsgBuffer.update_reservation
  dsimp only
  split <;> rfl

@[simp]
theorem MsgBuffer.update_reservation_capacity_inline (b : MsgBuffer) :
    (MsgBuffer.update_reservation b).capacity_inline = b.capacity_inline := by
  unfold MsgBuffer.update_reservation
  dsimp only
  split <;> rfl

@[simp]
theorem MsgBuffer.update_reservation_capacity_descriptors (b : MsgBuffer) :
    (MsgBuffer.update_reservation b).capacity_descriptors = b.capacity_descriptors := by
  unfold MsgBuffer.update_reservation
  dsimp only
  split <;> rfl

theorem MsgBuffer.update_reservation_capacity_le (b : MsgBuffer) :
    b.capacity ≤ (MsgBuffer.update_reservation b).capacity := by
  unfold MsgBuffer.update_reservation
  dsimp only
  split
  · exact Nat.le_max_left _ _
  · exact Nat.le_refl _

/-- C10.  `MsgBuffer::reset` and the post-send reset path
`<MsgBuffer as MsgImpl>::reset_on_send` are the same transformation of the
buffer state: applied to any buffer they produce identical header bits, size,
port fields, message id, descriptor count, content and logical length. -/
theorem reset_equals_reset_on_send : ∀ b : MsgBuffer,
    MsgBuffer.reset b = MsgBuffer.reset_on_send b :=
  fun _ => rfl

/-- C3.  After any sequence of mutations applied to a fresh buffer, `reset()`
restores the canonical empty state — size field equal to the `MessageStart`
width, descriptor count `0`, complex bit clear, remote/local/voucher ports
NULL — while the allocation size and both reservation high-water marks are
those of the mutated buffer; a second `reset()` changes nothing. -/
theorem reset_canonical_after_mutations :
    ∀ (ops : List MsgOp) (b : MsgBuffer),
    MsgBuffer.applyOps MsgBuffer.new ops = some b →
      (MsgBuffer.reset b).header.msgh_size = sizeOfMessageStart ∧
      Msg.descriptor_count (MsgBuffer.reset b) = 0 ∧
      Msg.complex (MsgBuffer.reset b) = false ∧
      (MsgBuffer.reset b).header.msgh_remote_port = MACH_PORT_NULL ∧
      (MsgBuffer.reset b).header.msgh_local_port = MACH_PORT_NULL ∧
      (MsgBuffer.reset b).header.msgh_voucher_port = MACH_PORT_NULL ∧
      (MsgBuffer.reset b).capacity = b.capacity ∧
      (MsgBuffer.reset b).capacity_inline = b.capacity_inline ∧
      (MsgBuffer.reset b).capacity_descriptors = b.capacity_descriptors ∧
      MsgBuffer.reset (MsgBuffer.reset b) = MsgBuffer.reset b := by
  intro ops b _
  refine ⟨rfl, rfl, ?_, rfl, rfl, rfl, rfl, rfl, rfl, rfl⟩
  show (MACH_MSG_TYPE_COPY_SEND &&& MACH_MSGH_BITS_COMPLEX != 0) = false
  decide

/-- A small mutated buffer used to instantiate hypothesis-bearing theorems. -/
def demoBuffer : MsgBuffer :=
  (MsgBuffer.applyOps MsgBuffer.new
    [MsgOp.extendInline [1, 2], MsgOp.copyRight PortCopyMode.send 5]).getD MsgBuffer.new

/-- Witness for C3 at a concrete mutation sequence. -/
theorem reset_canonical_after_mutations_witness :
    MsgBuffer.applyOps MsgBuffer.new
        [MsgOp.extendInline [1, 2], MsgOp.copyRight PortCopyMode.send 5] =
      some demoBuffer ∧
    (MsgBuffer.reset demoBuffer).header.msgh_size = sizeOfMessageStart ∧
    MsgBuffer.reset (MsgBuffer.reset demoBuffer) = MsgBuffer.reset demoBuffer :=
  ⟨by decide,
    (reset_canonical_after_mutations
      [MsgOp.extendInline [1, 2], MsgOp.copyRight PortCopyMode.send 5]
      demoBuffer (by decide)).1,
    (reset_canonical_after_mutations
      [MsgOp.extendInline [1, 2], MsgOp.copyRight PortCopyMode.send 5]
      demoBuffer (by decide)).2.2.2.2.2.2.2.2.2⟩

/-- C2.  `Port::send` always hands back the buffer with a NULL remote port;
on kernel success the buffer is exactly the canonical post-send reset of the
input buffer, and on kernel failure the buffer is the input buffer with only
the remote-port field cleared (descriptors, inline payload, size and
capacities untouched).  The third conjunct records the call's result. -/
theorem send_clears_remote_and_resets_iff_success :
    ∀ (p : Port) (msg : MsgBuffer) (status : Nat),
      (Port.send p msg status).1.header.msgh_remote_port = MACH_PORT_NULL ∧
      (Port.send p msg status).1 =
        (if status = 0 then MsgBuffer.reset_on_send msg
         else { msg with header := { msg.header with msgh_remote_port := MACH_PORT_NULL } }) ∧
      (Port.send p msg status).2 =
        (if status = 0 then Except.ok ()
         else Except.error (rust_from_mach_error status)) := by
  intro p msg status
  by_cases h : status = 0 <;>
    simp [Port.send, mach_call, h, MsgBuffer.reset_on_send, MACH_PORT_NULL]

/-- C4.  Dropping a `Port` issues exactly one reference-count decrement (delta
`-1` on this port's name) per held right and no more — never retried or
duplicated; the send-right release reports no error when the kernel status is
`KERN_SUCCESS` or `KERN_INVALID_RIGHT` (receive right already gone) and
reports any other status through the diagnostic log; the receive-right release
logs any non-success status.  `Port.drop` is total: no outcome panics. -/
theorem drop_releases_each_right_once :
    ∀ (p : Port) (receive_status send_status : Nat),
      (Port.drop p receive_status send_status).calls.countP
          (fun c => c.right == MACH_PORT_RIGHT_RECEIVE) =
        (if p.has_receive then 1 else 0) ∧
      (Port.drop p receive_status send_status).calls.countP
          (fun c => c.right == MACH_PORT_RIGHT_SEND) =
        (if p.has_send then 1 else 0) ∧
      (∀ c ∈ (Port.drop p receive_status send_status).calls,
        c.port = p.port ∧ c.delta = -1) ∧
      (Port.drop p receive_status send_status).logged =
        (if p.has_receive ∧ receive_status ≠ 0 then [receive_status] else []) ++
        (if p.has_send ∧ ¬(send_status = KERN_SUCCESS ∨ send_status = KERN_INVALID_RIGHT)
          then [send_status] else []) := by
  intro p rs ss
  cases hr : p.has_receive <;> cases hs : p.has_send <;>
    by_cases hrs : rs ≠ 0 <;>
      by_cases hss : ss = KERN_SUCCESS ∨ ss = KERN_INVALID_RIGHT <;>
        simp [Port.drop, hr, hs, hrs, hss, MACH_PORT_RIGHT_RECEIVE, MACH_PORT_RIGHT_SEND]

/-- Witness for C4 at a concrete port and concrete kernel statuses. -/
theorem drop_releases_each_right_once_witness :
    (Port.drop { port := 7, has_receive := true, has_send := true } 5 3).calls.countP
        (fun c => c.right == MACH_PORT_RIGHT_RECEIVE) = 1 ∧
    (Port.drop { port := 7, has_receive := true, has_send := true } 5 3).logged = [5, 3] :=
  ⟨(drop_releases_each_right_once { port := 7, has_receive := true, has_send := true } 5 3).1,
    by
      have h := (drop_releases_each_right_once
        { port := 7, has_receive := true, has_send := true } 5 3).2.2.2
      rw [h]
      decide⟩

/-- C5.  `take_raw_port` yields nothing when the embedded name is NULL or
DEAD (leaving the record untouched), and otherwise yields the embedded name
while overwriting the field with NULL; on the record a first call leaves
behind, both `take_raw_port` and `take_port` always come back empty (the
latter without consulting the kernel), so a received capability can never be
read out twice. -/
theorem take_raw_port_empties_descriptor :
    ∀ (d : MsgPortDescriptor) (query_status ty : Nat),
      ((MsgPortDescriptor.take_raw_port d).1 = none ↔
        (d.name = MACH_PORT_NULL ∨ d.name = MACH_PORT_DEAD)) ∧
      ((d.name = MACH_PORT_NULL ∨ d.name = MACH_PORT_DEAD) →
        (MsgPortDescriptor.take_raw_port d).2 = d) ∧
      (¬(d.name = MACH_PORT_NULL ∨ d.name = MACH_PORT_DEAD) →
        (MsgPortDescriptor.take_raw_port d).1 = some d.name ∧
        (MsgPortDescriptor.take_raw_port d).2 = { d with name := MACH_PORT_NULL }) ∧
      (MsgPortDescriptor.take_raw_port (MsgPortDescriptor.take_raw_port d).2).1 = none ∧
      (MsgPortDescriptor.take_port d query_status ty).2 =
        (MsgPortDescriptor.take_raw_port d).2 ∧
      (MsgPortDescriptor.take_port (MsgPortDescriptor.take_raw_port d).2 query_status ty).1 =
        Except.ok none := by
  intro d qs ty
  by_cases h : d.name = MACH_PORT_NULL ∨ d.name = MACH_PORT_DEAD
  · refine ⟨by simp [MsgPortDescriptor.take_raw_port, h], ?_, ?_, ?_, ?_, ?_⟩
    · intro _; simp [MsgPortDescriptor.take_raw_port, h]
    · intro hc; exact absurd h hc
    · simp [MsgPortDescriptor.take_raw_port, h]
    · simp [MsgPortDescriptor.take_port, MsgPortDescriptor.take_raw_port, h]
    · simp [MsgPortDescriptor.take_port, MsgPortDescriptor.take_raw_port, h]
  · have h9 : ¬(d.name = 0 ∨ d.name = 4294967295) := by
      simpa [MACH_PORT_NULL, MACH_PORT_DEAD] using h
    refine ⟨by simp [MsgPortDescriptor.take_raw_port, h], ?_, ?_, ?_, ?_, ?_⟩
    · intro hc; exact absurd hc h
    · intro _; simp [MsgPortDescriptor.take_raw_port, h]
    · simp [MsgPortDescriptor.take_raw_port, MACH_PORT_NULL, MACH_PORT_DEAD, h9]
    · rcases hq : mach_call qs with e | u <;>
        simp [MsgPortDescriptor.take_port, MsgPortDescriptor.take_raw_port,
          MACH_PORT_NULL, MACH_PORT_DEAD, h9, Port.from_raw_port, hq]
    · simp [MsgPortDescriptor.take_port, MsgPortDescriptor.take_raw_port,
        MACH_PORT_NULL, MACH_PORT_DEAD, h9]

/-- Witness for C5 at a concrete descriptor: name `9`, then emptied. -/
theorem take_raw_port_empties_descriptor_witness :
    (MsgPortDescriptor.take_raw_port
        { name := 9, pad1 := 0, disposition := 19, type_ := 0 }).1 = some 9 ∧
    (MsgPortDescriptor.take_raw_port (MsgPortDescriptor.take_raw_port
        { name := 9, pad1 := 0, disposition := 19, type_ := 0 }).2).1 = none :=
  ⟨((take_raw_port_empties_descriptor
      { name := 9, pad1 := 0, disposition := 19, type_ := 0 } 0 0).2.2.1 (by decide)).1,
    (take_raw_port_empties_descriptor
      { name := 9, pad1 := 0, disposition := 19, type_ := 0 } 0 0).2.2.2.1⟩

/-- C6.  For a descriptor record whose leading type tag is readable,
`kind`, `kind_mut` and `size` succeed exactly when the tag is one of the four
recognized kinds — any other tag makes all three fatal (`none`, the
`unreachable!()` halt), and walking a descriptor chain that starts at such a
record is likewise fatal rather than a misparse or a recoverable error. -/
theorem unrecognized_descriptor_tag_is_fatal :
    ∀ (bytes : List Nat) (t n : Nat),
      MsgDescriptor.type_ bytes = some t →
      (((MsgDescriptor.kind bytes).isSome ∧ (MsgDescriptor.kind_mut bytes).isSome ∧
          (MsgDescriptor.size bytes).isSome) ↔
        (t = MACH_MSG_PORT_DESCRIPTOR ∨ t = MACH_MSG_OOL_DESCRIPTOR ∨
          t = MACH_MSG_OOL_PORTS_DESCRIPTOR ∨ t = MACH_MSG_OOL_VOLATILE_DESCRIPTOR)) ∧
      (¬(t = MACH_MSG_PORT_DESCRIPTOR ∨ t = MACH_MSG_OOL_DESCRIPTOR ∨
          t = MACH_MSG_OOL_PORTS_DESCRIPTOR ∨ t = MACH_MSG_OOL_VOLATILE_DESCRIPTOR) →
        MsgDescriptor.kind bytes = none ∧ MsgDescriptor.kind_mut bytes = none ∧
        MsgDescriptor.size bytes = none ∧ descChain (n + 1) bytes = none) := by
  intro bytes t n ht
  by_cases h0 : t = MACH_MSG_PORT_DESCRIPTOR
  · simp [MsgDescriptor.kind, MsgDescriptor.kind_mut, MsgDescriptor.size, ht, h0,
      MACH_MSG_PORT_DESCRIPTOR]
  · by_cases h1 : t = MACH_MSG_OOL_DESCRIPTOR
    · simp [MsgDescriptor.kind, MsgDescriptor.kind_mut, MsgDescriptor.size, ht, h0, h1,
        MACH_MSG_PORT_DESCRIPTOR, MACH_MSG_OOL_DESCRIPTOR]
    · by_cases h2 : t = MACH_MSG_OOL_PORTS_DESCRIPTOR
      · simp [MsgDescriptor.kind, MsgDescriptor.kind_mut, MsgDescriptor.size, ht, h0, h1, h2,
          MACH_MSG_PORT_DESCRIPTOR, MACH_MSG_OOL_DESCRIPTOR, MACH_MSG_OOL_PORTS_DESCRIPTOR]
      · by_cases h3 : t = MACH_MSG_OOL_VOLATILE_DESCRIPTOR
        · simp [MsgDescriptor.kind, MsgDescriptor.kind_mut, MsgDescriptor.size,
            ht, h0, h1, h2, h3, MACH_MSG_PORT_DESCRIPTOR, MACH_MSG_OOL_DESCRIPTOR,
            MACH_MSG_OOL_PORTS_DESCRIPTOR, MACH_MSG_OOL_VOLATILE_DESCRIPTOR]
        · simp [MsgDescriptor.kind, MsgDescriptor.kind_mut, MsgDescriptor.size, descChain,
            ht, h0, h1, h2, h3]

/-- Witness for C6 at a record whose tag byte is `7` (unrecognized). -/
theorem unrecognized_descriptor_tag_is_fatal_witness :
    MsgDescriptor.type_ (le32 0 ++ le32 0 ++ le32 (7 * 2 ^ 24)) = some 7 ∧
    MsgDescriptor.kind (le32 0 ++ le32 0 ++ le32 (7 * 2 ^ 24)) = none ∧
    descChain 1 (le32 0 ++ le32 0 ++ le32 (7 * 2 ^ 24)) = none :=
  ⟨by decide,
    ((unrecognized_descriptor_tag_is_fatal (le32 0 ++ le32 0 ++ le32 (7 * 2 ^ 24)) 7 0
        (by decide)).2 (by decide)).1,
    ((unrecognized_descriptor_tag_is_fatal (le32 0 ++ le32 0 ++ le32 (7 * 2 ^ 24)) 7 0
        (by decide)).2 (by decide)).2.2.2⟩

/-- C7.  For any `Duration` (a `u64` second count and sub-second nanoseconds
below `10 ^ 9`), `convert_timeout` is the total millisecond count
(seconds times 1000 plus whole sub-second milliseconds) when that count is at
most `i32::MAX`, and saturates to exactly `i32::MAX` when the count exceeds it
or its checked computation overflows; the result never exceeds `i32::MAX`, so
it is non-negative as an `i32`. -/
theorem convert_timeout_saturates :
    ∀ secs nanos : Nat, secs < 2 ^ 64 → nanos < 1000000000 →
      convert_timeout secs nanos = min (secs * 1000 + nanos / 1000000) 2147483647 ∧
      convert_timeout secs nanos ≤ 2147483647 := by
  intro secs nanos hs hn
  have hmain : convert_timeout secs nanos = min (secs * 1000 + nanos / 1000000) 2147483647 := by
    unfold convert_timeout
    by_cases h1 : secs * 1000 < 18446744073709551616
    · by_cases h2 : secs * 1000 + nanos / 1000000 < 18446744073709551616
      · by_cases h3 : secs * 1000 + nanos / 1000000 ≤ 2147483647
        · simp [h1, h2, h3, Nat.min_eq_left h3]
        · simp [h1, h2, h3, Nat.min_eq_right (Nat.le_of_not_le h3)]
      · have hge : 2147483647 ≤ secs * 1000 + nanos / 1000000 := by omega
        simp [h1, h2, Nat.min_eq_right hge]
    · have hge : 2147483647 ≤ secs * 1000 + nanos / 1000000 := by omega
      simp [h1, Nat.min_eq_right hge]
  exact ⟨hmain, hmain ▸ Nat.min_le_right _ _⟩

/-- Witness for C7 at 2 seconds and 500 milliseconds. -/
theorem convert_timeout_saturates_witness :
    convert_timeout 2 500000000 = min (2 * 1000 + 500000000 / 1000000) 2147483647 :=
  (convert_timeout_saturates 2 500000000 (by decide) (by decide)).1

/-- C8 counterexample.  As stated, the claim requires `Port::send` to map only
the send-timed-out status to the `Timeout` kind; but `rust_from_mach_error`
classifies both timed-out statuses identically, so a send whose kernel status
is `MACH_RCV_TIMED_OUT` — which is not the send-timed-out code — still comes
back as `Timeout` instead of a generic kernel-call failure. -/
theorem send_timeout_kind_counterexample :
    (Port.send { port := 5, has_receive := false, has_send := true }
        MsgBuffer.new MACH_RCV_TIMED_OUT).2 =
      Except.error { kind := IoErrorKind.timedOut, code := MACH_RCV_TIMED_OUT } ∧
    MACH_RCV_TIMED_OUT ≠ MACH_SEND_TIMED_OUT := by
  constructor
  · rfl
  · decide

/-- C8 amended.  `Port::send` and `Port::recv` fail exactly on a non-zero
kernel status; the error carries the raw status code, and its kind is
`Timeout` exactly when the status is one of the two kernel timed-out codes
(send- or receive-timed-out, for either call) — every other non-success
status surfaces as a generic kernel-call failure; no failure is swallowed and
none is retried (the result is a function of the single call's status). -/
theorem send_recv_error_classification :
    ∀ (p : Port) (msg : MsgBuffer) (status : Nat) (k : RecvOutcome),
      ((Port.send p msg status).2 = Except.ok () ↔ status = 0) ∧
      (status ≠ 0 →
        (Port.send p msg status).2 = Except.error (rust_from_mach_error status)) ∧
      ((Port.recv p msg k).2 = Except.ok () ↔ k.status = 0) ∧
      (k.status ≠ 0 →
        (Port.recv p msg k).2 = Except.error (rust_from_mach_error k.status)) ∧
      (rust_from_mach_error status).code = status ∧
      ((rust_from_mach_error status).kind = IoErrorKind.timedOut ↔
        (status = MACH_SEND_TIMED_OUT ∨ status = MACH_RCV_TIMED_OUT)) := by
  intro p msg status k
  refine ⟨?_, ?_, ?_, ?_, rfl, ?_⟩
  · by_cases h : status = 0 <;> simp [Port.send, mach_call, h]
  · intro h; simp [Port.send, mach_call, h]
  · by_cases h : k.status = 0 <;> simp [Port.recv, mach_call, h]
  · intro h; simp [Port.recv, mach_call, h]
  · by_cases h1 : status = MACH_SEND_TIMED_OUT
    · simp [rust_from_mach_error, h1]
    · by_cases h2 : status = MACH_RCV_TIMED_OUT <;>
        simp [rust_from_mach_error, h1, h2]

/-- Witness for C8 (amended) at a concrete failing send. -/
theorem send_recv_error_classification_witness :
    (Port.send { port := 5, has_receive := false, has_send := true }
        MsgBuffer.new 4).2 = Except.error (rust_from_mach_error 4) :=
  (send_recv_error_classification { port := 5, has_receive := false, has_send := true }
      MsgBuffer.new 4
      { status := 0, header := MsgBuffer.new.header, msgh_descriptor_count := 0,
        bytes := [] }).2.1 (by decide)

/-! ### The structural invariant of an encode-side buffer: its bytes after the
`MessageStart` are a chain of valid port-descriptor records followed by the
inline payload, with the stored count and size fields matching. -/

/-- Invariant tying a buffer to the descriptor records and inline bytes it
holds. -/
structure MsgInv (b : MsgBuffer) (descs : List (List Nat)) (inl : List Nat) : Prop where
  rest_eq : b.rest = descs.flatten ++ inl
  count_eq : b.msgh_descriptor_count = descs.length
  valid : ∀ d ∈ descs, d.length = 12 ∧ d[11]? = some 0
  size_eq : b.header.msgh_size =
    sizeOfMessageStart + (descs.map List.length).sum + inl.length

theorem mach_msg_port_descriptor_bytes_length (name disposition : Nat) :
    (mach_msg_port_descriptor_bytes name disposition).length = 12 := rfl

theorem mach_msg_port_descriptor_bytes_tag (name disposition : Nat) :
    (mach_msg_port_descriptor_bytes name disposition)[11]? = some 0 := by
  have harith :
      (disposition % 2 ^ 8 * 2 ^ 16 + MACH_MSG_PORT_DESCRIPTOR % 2 ^ 8 * 2 ^ 24)
        / 2 ^ 24 % 256 = 0 := by
    have h1 : disposition % 2 ^ 8 < 2 ^ 8 := Nat.mod_lt _ (by norm_num)
    have h2 : disposition % 2 ^ 8 * 2 ^ 16 + MACH_MSG_PORT_DESCRIPTOR % 2 ^ 8 * 2 ^ 24
        < 2 ^ 24 := by
      simp only [MACH_MSG_PORT_DESCRIPTOR]
      norm_num at h1 ⊢
      omega
    rw [Nat.div_eq_of_lt h2]
  have hval : (mach_msg_port_descriptor_bytes name disposition)[11]? =
      some ((disposition % 2 ^ 8 * 2 ^ 16 + MACH_MSG_PORT_DESCRIPTOR % 2 ^ 8 * 2 ^ 24)
        / 2 ^ 24 % 256) := rfl
  rw [hval, harith]

theorem sum_lengths_of_port_records (descs : List (List Nat))
    (h : ∀ d ∈ descs, d.length = 12 ∧ d[11]? = some 0) :
    (descs.map List.length).sum = 12 * descs.length := by
  induction descs with
  | nil => simp
  | cons d tl ih =>
    have hd := (h d (by simp)).1
    have htl := ih (fun x hx => h x (by simp [hx]))
    simp [hd, htl]
    ring

/-- Walking the chain over a flattening of valid port records (followed by
anything) yields exactly those records. -/
theorem descChain_flatten (descs : List (List Nat)) (inl : List Nat)
    (h : ∀ d ∈ descs, d.length = 12 ∧ d[11]? = some 0) :
    descChain descs.length (descs.flatten ++ inl) = some descs := by
  induction descs with
  | nil => simp [descChain]
  | cons d tl ih =>
    obtain ⟨hlen, htag⟩ := h d (by simp)
    have htl := ih (fun x hx => h x (by simp [hx]))
    have hbytes : (d :: tl).flatten ++ inl = d ++ (tl.flatten ++ inl) := by
      simp [List.flatten_cons, List.append_assoc]
    rw [List.length_cons, hbytes]
    have htype : MsgDescriptor.type_ (d ++ (tl.flatten ++ inl)) = some 0 := by
      unfold MsgDescriptor.type_
      rw [List.getElem?_append_left (by rw [hlen]; norm_num), htag]
      rfl
    have hsize : MsgDescriptor.size (d ++ (tl.flatten ++ inl)) = some 12 := by
      unfold MsgDescriptor.size
      rw [htype]
      rfl
    have hle : 12 ≤ (d ++ (tl.flatten ++ inl)).length := by
      simp [List.length_append, hlen]
    have htake : (d ++ (tl.flatten ++ inl)).take 12 = d := by
      rw [← hlen]
      exact List.take_left _ _
    have hdrop : (d ++ (tl.flatten ++ inl)).drop 12 = tl.flatten ++ inl := by
      rw [← hlen]
      exact List.drop_left _ _
    unfold descChain
    rw [hsize]
    simp only [hle, if_true, hdrop, htake, htl]

theorem descriptors_byte_len_of_MsgInv {b : MsgBuffer} {descs : List (List Nat)}
    {inl : List Nat} (h : MsgInv b descs inl) :
    Msg.descriptors_byte_len b = some (descs.map List.length).sum := by
  unfold Msg.descriptors_byte_len Msg.descriptors
  rw [h.count_eq, h.rest_eq, descChain_flatten descs inl h.valid]
  rfl

theorem inline_data_of_MsgInv {b : MsgBuffer} {descs : List (List Nat)}
    {inl : List Nat} (h : MsgInv b descs inl) :
    Msg.inline_data b = some inl := by
  have hdbl := descriptors_byte_len_of_MsgInv h
  have hflat : descs.flatten.length = (descs.map List.length).sum :=
    List.length_flatten descs
  unfold Msg.inline_data
  simp only [hdbl]
  have hguard1 : sizeOfMessageStart + (descs.map List.length).sum ≤ b.header.msgh_size := by
    rw [h.size_eq]
    omega
  have hguard2 : b.header.msgh_size ≤ sizeOfMessageStart + b.rest.length := by
    rw [h.size_eq, h.rest_eq, List.length_append, hflat]
    omega
  rw [if_pos ⟨hguard1, hguard2⟩, h.rest_eq]
  have hdrop : (descs.flatten ++ inl).drop ((descs.map List.length).sum) = inl := by
    rw [← hflat]
    exact List.drop_left _ _
  rw [hdrop, h.size_eq]
  have hlen : sizeOfMessageStart + (descs.map List.length).sum + inl.length
      - (sizeOfMessageStart + (descs.map List.length).sum) = inl.length := by omega
  rw [hlen, List.take_length]

/-! ### Preservation of the invariant by each mutation -/

theorem applyOps_foldl_none (ops : List MsgOp) :
    (ops.foldl (fun ob op => ob.bind (fun b => MsgBuffer.applyOp b op)) none) = none := by
  induction ops with
  | nil => rfl
  | cons op tl ih => simpa using ih

theorem applyOps_cons (b : MsgBuffer) (op : MsgOp) (ops : List MsgOp) :
    MsgBuffer.applyOps b (op :: ops) =
      (MsgBuffer.applyOp b op).bind (fun b1 => MsgBuffer.applyOps b1 ops) := by
  cases h : MsgBuffer.applyOp b op with
  | none => simp [MsgBuffer.applyOps, List.foldl_cons, h, applyOps_foldl_none]
  | some b1 => simp [MsgBuffer.applyOps, List.foldl_cons, h]

theorem extend_step {b : MsgBuffer} {descs : List (List Nat)} {inl : List Nat}
    (data : List Nat) (h : MsgInv b descs inl)
    (hb : sizeOfMessageStart + (descs.map List.length).sum + inl.length
      + data.length < 2 ^ 32) :
    ∃ b1, MsgBuffer.extend_inline_data b data = some b1 ∧ MsgInv b1 descs (inl ++ data) := by
  have hinl := inline_data_of_MsgInv h
  unfold MsgBuffer.extend_inline_data
  simp only [hinl]
  refine ⟨_, rfl, ?_, ?_, h.valid, ?_⟩
  · show (if b.capacity_inline < inl.length + data.length then
        MsgBuffer.update_reservation { b with capacity_inline := inl.length + data.length }
      else b).rest ++ data = descs.flatten ++ (inl ++ data)
    split <;> simp [h.rest_eq, List.append_assoc]
  · show (if b.capacity_inline < inl.length + data.length then
        MsgBuffer.update_reservation { b with capacity_inline := inl.length + data.length }
      else b).msgh_descriptor_count = descs.length
    split <;> simp [h.count_eq]
  · show ((if b.capacity_inline < inl.length + data.length then
        MsgBuffer.update_reservation { b with capacity_inline := inl.length + data.length }
      else b).header.msgh_size + data.length % 2 ^ 32) % 2 ^ 32 =
      sizeOfMessageStart + (descs.map List.length).sum + (inl ++ data).length
    have hdata : data.length < 2 ^ 32 := by omega
    have hsz : (if b.capacity_inline < inl.length + data.length then
        MsgBuffer.update_reservation { b with capacity_inline := inl.length + data.length }
      else b).header.msgh_size = b.header.msgh_size := by
      split <;> simp
    rw [hsz, h.size_eq, Nat.mod_eq_of_lt hdata, Nat.mod_eq_of_lt (by omega),
      List.length_append]
    omega

theorem append_step {b : MsgBuffer} {descs : List (List Nat)} {inl : List Nat}
    (r : List Nat) (h : MsgInv b descs inl)
    (hr : r.length = 12 ∧ r[11]? = some 0)
    (hb : sizeOfMessageStart + (descs.map List.length).sum + r.length
      + inl.length < 2 ^ 32) :
    ∃ b1, MsgBuffer.append_descriptor b r = some b1 ∧ MsgInv b1 (descs ++ [r]) inl := by
  have hdbl := descriptors_byte_len_of_MsgInv h
  have hS : (descs.map List.length).sum = descs.flatten.length :=
    (List.length_flatten descs).symm
  have hS12 : (descs.map List.length).sum = 12 * descs.length :=
    sum_lengths_of_port_records descs h.valid
  have htake : b.rest.take (descs.map List.length).sum = descs.flatten := by
    rw [h.rest_eq, hS]
    exact List.take_left _ _
  have hdrop : b.rest.drop (descs.map List.length).sum = inl := by
    rw [h.rest_eq, hS]
    exact List.drop_left _ _
  have hcount : b.msgh_descriptor_count + 1 < 2 ^ 32 := by
    rw [h.count_eq]
    omega
  have hvalid1 : ∀ d ∈ descs ++ [r], d.length = 12 ∧ d[11]? = some 0 := by
    intro d hd
    rcases List.mem_append.mp hd with hd1 | hd1
    · exact h.valid d hd1
    · rw [List.mem_singleton.mp hd1]
      exact hr
  have hrest1 : b.rest.take (descs.map List.length).sum ++ r
      ++ b.rest.drop (descs.map List.length).sum = (descs ++ [r]).flatten ++ inl := by
    rw [htake, hdrop]
    simp [List.flatten_append, List.flatten_cons, List.append_assoc]
  have hcount1 : (b.msgh_descriptor_count + 1) % 2 ^ 32 = (descs ++ [r]).length := by
    rw [Nat.mod_eq_of_lt hcount, h.count_eq]
    simp
  have hsize1 : (b.header.msgh_size + r.length % 2 ^ 32) % 2 ^ 32 =
      sizeOfMessageStart + ((descs ++ [r]).map List.length).sum + inl.length := by
    have hr12 : r.length % 2 ^ 32 = r.length := Nat.mod_eq_of_lt (by omega)
    rw [hr12, h.size_eq, Nat.mod_eq_of_lt (by omega)]
    simp [List.map_append, List.sum_append, hr.1]
    omega
  unfold MsgBuffer.append_descriptor
  simp only [hdbl]
  split
  · exact ⟨_, rfl, by simpa using hrest1, by simpa using hcount1, hvalid1,
      by simpa using hsize1⟩
  · exact ⟨_, rfl, hrest1, hcount1, hvalid1, hsize1⟩

theorem reserve_inline_step {b : MsgBuffer} {descs : List (List Nat)} {inl : List Nat}
    (n : Nat) (h : MsgInv b descs inl) :
    ∃ b1, MsgBuffer.reserve_inline_data b n = some b1 ∧ MsgInv b1 descs inl := by
  have hinl := inline_data_of_MsgInv h
  unfold MsgBuffer.reserve_inline_data
  simp only [hinl]
  split
  · exact ⟨_, rfl, by simpa using h.rest_eq, by simpa using h.count_eq, h.valid,
      by simpa using h.size_eq⟩
  · exact ⟨b, rfl, h⟩

theorem reserve_descriptors_step {b : MsgBuffer} {descs : List (List Nat)} {inl : List Nat}
    (n : Nat) (h : MsgInv b descs inl) :
    MsgInv (MsgBuffer.reserve_descriptors b n) descs inl := by
  unfold MsgBuffer.reserve_descriptors
  split
  · exact ⟨by simpa using h.rest_eq, by simpa using h.count_eq, h.valid,
      by simpa using h.size_eq⟩
  · exact h

/-- Any mutation sequence applied to a buffer satisfying the invariant runs to
completion and yields a buffer holding the old and the appended descriptor
records followed by the old and the appended inline bytes, as long as the
final logical size stays below `2 ^ 32`. -/
theorem applyOps_MsgInv :
    ∀ (ops : List MsgOp) (b : MsgBuffer) (descs : List (List Nat)) (inl : List Nat),
    MsgInv b descs inl →
    sizeOfMessageStart + ((descs ++ opsDescRecords ops).map List.length).sum
      + (inl ++ opsInlineBytes ops).length < 2 ^ 32 →
    ∃ b2, MsgBuffer.applyOps b ops = some b2 ∧
      MsgInv b2 (descs ++ opsDescRecords ops) (inl ++ opsInlineBytes ops) := by
  intro ops
  induction ops with
  | nil =>
    intro b descs inl h _
    refine ⟨b, rfl, ?_⟩
    simpa [opsDescRecords, opsInlineBytes] using h
  | cons op tl ih =>
    intro b descs inl h hb
    rw [applyOps_cons]
    cases op with
    | extendInline data =>
      have hbtl : sizeOfMessageStart + ((descs ++ opsDescRecords tl).map List.length).sum
          + ((inl ++ data) ++ opsInlineBytes tl).length < 2 ^ 32 := by
        simp [opsDescRecords, opsInlineBytes, MsgOp.descRecord, MsgOp.inlineBytes,
          List.filterMap_cons, List.length_append, List.map_append, List.sum_append] at hb ⊢
        omega
      have hstep := extend_step data h (by
        simp [opsDescRecords, opsInlineBytes, MsgOp.descRecord, MsgOp.inlineBytes,
          List.filterMap_cons, List.length_append, List.map_append, List.sum_append] at hb
        omega)
      obtain ⟨b1, hb1, hinv1⟩ := hstep
      obtain ⟨b2, hb2, hinv2⟩ := ih b1 descs (inl ++ data) hinv1 hbtl
      refine ⟨b2, ?_, ?_⟩
      · show (MsgBuffer.extend_inline_data b data).bind
            (fun b1 => MsgBuffer.applyOps b1 tl) = some b2
        rw [hb1]
        exact hb2
      · simpa [opsDescRecords, opsInlineBytes, MsgOp.descRecord, MsgOp.inlineBytes,
          List.append_assoc] using hinv2
    | copyRight mode port =>
      have hrlem : (mach_msg_port_descriptor_bytes port mode.disposition).length = 12 ∧
          (mach_msg_port_descriptor_bytes port mode.disposition)[11]? = some 0 :=
        ⟨mach_msg_port_descriptor_bytes_length _ _, mach_msg_port_descriptor_bytes_tag _ _⟩
      have hstep := append_step (mach_msg_port_descriptor_bytes port mode.disposition) h
        hrlem (by
          simp [opsDescRecords, opsInlineBytes, MsgOp.descRecord, MsgOp.inlineBytes,
            List.filterMap_cons, List.length_append, List.map_append, List.sum_append,
            mach_msg_port_descriptor_bytes_length] at hb ⊢
          omega)
      obtain ⟨b1, hb1, hinv1⟩ := hstep
      have hbtl : sizeOfMessageStart
          + (((descs ++ [mach_msg_port_descriptor_bytes port mode.disposition])
            ++ opsDescRecords tl).map List.length).sum
          + (inl ++ opsInlineBytes tl).length < 2 ^ 32 := by
        simp [opsDescRecords, opsInlineBytes, MsgOp.descRecord, MsgOp.inlineBytes,
          List.filterMap_cons, List.length_append, List.map_append, List.sum_append,
          mach_msg_port_descriptor_bytes_length] at hb ⊢
        omega
      obtain ⟨b2, hb2, hinv2⟩ :=
        ih b1 (descs ++ [mach_msg_port_descriptor_bytes port mode.disposition]) inl hinv1 hbtl
      refine ⟨b2, ?_, ?_⟩
      · show (MsgBuffer.copy_right_raw b mode port).bind
            (fun b1 => MsgBuffer.applyOps b1 tl) = some b2
        unfold MsgBuffer.copy_right_raw
        rw [hb1]
        exact hb2
      · simpa [opsDescRecords, opsInlineBytes, MsgOp.descRecord, MsgOp.inlineBytes,
          List.append_assoc] using hinv2
    | moveRight mode port =>
      have hrlem : (mach_msg_port_descriptor_bytes port mode.disposition).length = 12 ∧
          (mach_msg_port_descriptor_bytes port mode.disposition)[11]? = some 0 :=
        ⟨mach_msg_port_descriptor_bytes_length _ _, mach_msg_port_descriptor_bytes_tag _ _⟩
      have hstep := append_step (mach_msg_port_descriptor_bytes port mode.disposition) h
        hrlem (by
          simp [opsDescRecords, opsInlineBytes, MsgOp.descRecord, MsgOp.inlineBytes,
            List.filterMap_cons, List.length_append, List.map_append, List.sum_append,
            mach_msg_port_descriptor_bytes_length] at hb ⊢
          omega)
      obtain ⟨b1, hb1, hinv1⟩ := hstep
      have hbtl : sizeOfMessageStart
          + (((descs ++ [mach_msg_port_descriptor_bytes port mode.disposition])
            ++ opsDescRecords tl).map List.length).sum
          + (inl ++ opsInlineBytes tl).length < 2 ^ 32 := by
        simp [opsDescRecords, opsInlineBytes, MsgOp.descRecord, MsgOp.inlineBytes,
          List.filterMap_cons, List.length_append, List.map_append, List.sum_append,
          mach_msg_port_descriptor_bytes_length] at hb ⊢
        omega
      obtain ⟨b2, hb2, hinv2⟩ :=
        ih b1 (descs ++ [mach_msg_port_descriptor_bytes port mode.disposition]) inl hinv1 hbtl
      refine ⟨b2, ?_, ?_⟩
      · show (MsgBuffer.move_right_raw b mode port).bind
            (fun b1 => MsgBuffer.applyOps b1 tl) = some b2
        unfold MsgBuffer.move_right_raw
        rw [hb1]
        exact hb2
      · simpa [opsDescRecords, opsInlineBytes, MsgOp.descRecord, MsgOp.inlineBytes,
          List.append_assoc] using hinv2
    | reserveInline n =>
      obtain ⟨b1, hb1, hinv1⟩ := reserve_inline_step n h
      have hbtl : sizeOfMessageStart + ((descs ++ opsDescRecords tl).map List.length).sum
          + (inl ++ opsInlineBytes tl).length < 2 ^ 32 := by
        simp [opsDescRecords, opsInlineBytes, MsgOp.descRecord, MsgOp.inlineBytes,
          List.filterMap_cons, List.length_append, List.map_append, List.sum_append] at hb ⊢
        omega
      obtain ⟨b2, hb2, hinv2⟩ := ih b1 descs inl hinv1 hbtl
      refine ⟨b2, ?_, ?_⟩
      · show (MsgBuffer.reserve_inline_data b n).bind
            (fun b1 => MsgBuffer.applyOps b1 tl) = some b2
        rw [hb1]
        exact hb2
      · simpa [opsDescRecords, opsInlineBytes, MsgOp.descRecord, MsgOp.inlineBytes] using hinv2
    | reserveDescriptors n =>
      have hinv1 := reserve_descriptors_step n h
      have hbtl : sizeOfMessageStart + ((descs ++ opsDescRecords tl).map List.length).sum
          + (inl ++ opsInlineBytes tl).length < 2 ^ 32 := by
        simp [opsDescRecords, opsInlineBytes, MsgOp.descRecord, MsgOp.inlineBytes,
          List.filterMap_cons, List.length_append, List.map_append, List.sum_append] at hb ⊢
        omega
      obtain ⟨b2, hb2, hinv2⟩ := ih (MsgBuffer.reserve_descriptors b n) descs inl hinv1 hbtl
      refine ⟨b2, ?_, ?_⟩
      · show (some (MsgBuffer.reserve_descriptors b n)).bind
            (fun b1 => MsgBuffer.applyOps b1 tl) = some b2
        exact hb2
      · simpa [opsDescRecords, opsInlineBytes, MsgOp.descRecord, MsgOp.inlineBytes] using hinv2

/-- Fresh buffers satisfy the invariant with no descriptors and no inline
bytes. -/
theorem MsgInv_new : MsgInv MsgBuffer.new [] [] :=
  ⟨rfl, rfl, by simp, by simp [MsgBuffer.new]⟩

/-- C1 (amended: the total size must fit the 32-bit header field).  For every
sequence of inline-byte chunks appended via `extend_inline_data` and port
descriptors appended via `copy_right`/`move_right` (with reservation calls
permitted in between) to a fresh `MsgBuffer`, whose total
header-width + descriptor bytes + inline bytes stays below `2 ^ 32`:
reading back via `inline_data()` yields exactly the concatenation of the
chunks in append order, `descriptors()` yields exactly the appended
descriptor records in append order, and the header size field equals
header-width + total descriptor bytes + total inline bytes. -/
theorem roundtrip_encode_decode (ops : List MsgOp)
    (hbound : sizeOfMessageStart + ((opsDescRecords ops).map List.length).sum
      + (opsInlineBytes ops).length < 2 ^ 32) :
    (MsgBuffer.applyOps MsgBuffer.new ops).bind Msg.inline_data =
        some (opsInlineBytes ops) ∧
    (MsgBuffer.applyOps MsgBuffer.new ops).bind Msg.descriptors =
        some (opsDescRecords ops) ∧
    (MsgBuffer.applyOps MsgBuffer.new ops).map (fun b => b.header.msgh_size) =
        some (sizeOfMessageStart + ((opsDescRecords ops).map List.length).sum
          + (opsInlineBytes ops).length) := by
  obtain ⟨b2, hb2, hinv⟩ := applyOps_MsgInv ops MsgBuffer.new [] [] MsgInv_new
    (by simpa using hbound)
  have hinv2 : MsgInv b2 (opsDescRecords ops) (opsInlineBytes ops) := by
    refine ⟨?_, ?_, ?_, ?_⟩
    · simpa using hinv.rest_eq
    · simpa using hinv.count_eq
    · intro d hd
      exact hinv.valid d (by simpa using hd)
    · simpa using hinv.size_eq
  refine ⟨?_, ?_, ?_⟩
  · rw [hb2, Option.some_bind]
    exact inline_data_of_MsgInv hinv2
  · rw [hb2, Option.some_bind]
    unfold Msg.descriptors
    rw [hinv2.count_eq, hinv2.rest_eq]
    exact descChain_flatten _ _ hinv2.valid
  · rw [hb2, Option.map_some']
    rw [hinv2.size_eq]

/-- Witness for C1 (amended) at a concrete mutation sequence: two inline
bytes, one copied send right, one more inline byte. -/
theorem roundtrip_encode_decode_witness :
    (sizeOfMessageStart
        + ((opsDescRecords [MsgOp.extendInline [1, 2], MsgOp.copyRight PortCopyMode.send 5,
            MsgOp.extendInline [3]]).map List.length).sum
        + (opsInlineBytes [MsgOp.extendInline [1, 2], MsgOp.copyRight PortCopyMode.send 5,
            MsgOp.extendInline [3]]).length < 2 ^ 32) ∧
    (MsgBuffer.applyOps MsgBuffer.new [MsgOp.extendInline [1, 2],
        MsgOp.copyRight PortCopyMode.send 5, MsgOp.extendInline [3]]).bind Msg.inline_data =
      some (opsInlineBytes [MsgOp.extendInline [1, 2], MsgOp.copyRight PortCopyMode.send 5,
        MsgOp.extendInline [3]]) :=
  ⟨by decide,
    (roundtrip_encode_decode [MsgOp.extendInline [1, 2], MsgOp.copyRight PortCopyMode.send 5,
      MsgOp.extendInline [3]] (by decide)).1⟩

/-- The size field written by `extend_inline_data`, for any buffer whose
inline data is readable. -/
theorem extend_inline_data_size (b : MsgBuffer) (data inl : List Nat)
    (h : Msg.inline_data b = some inl) :
    (MsgBuffer.extend_inline_data b data).map (fun x => x.header.msgh_size) =
      some ((b.header.msgh_size + data.length % 2 ^ 32) % 2 ^ 32) := by
  unfold MsgBuffer.extend_inline_data
  simp only [h]
  split <;> simp

/-- C1 counterexample.  The claim as stated quantifies over every sequence of
chunks: a single `extend_inline_data` of `2 ^ 32` zero bytes on a fresh buffer
leaves the header size field at `28` — the `u32` size field wraps — instead of
the claimed header-width + total inline bytes `28 + 2 ^ 32`. -/
theorem size_field_wraps_counterexample :
    (MsgBuffer.applyOps MsgBuffer.new
        [MsgOp.extendInline (List.replicate (2 ^ 32) 0)]).map
      (fun b => b.header.msgh_size) = some sizeOfMessageStart ∧
    some sizeOfMessageStart ≠
      some (sizeOfMessageStart
        + ((opsDescRecords [MsgOp.extendInline (List.replicate (2 ^ 32) 0)]).map
            List.length).sum
        + (opsInlineBytes [MsgOp.extendInline (List.replicate (2 ^ 32) 0)]).length) := by
  have hgen : ∀ data : List Nat,
      (MsgBuffer.applyOps MsgBuffer.new [MsgOp.extendInline data]).map
        (fun b => b.header.msgh_size) =
      some ((sizeOfMessageStart + data.length % 2 ^ 32) % 2 ^ 32) := by
    intro data
    have hnil : ∀ o : Option MsgBuffer,
        o.bind (fun b1 => MsgBuffer.applyOps b1 []) = o := by
      intro o
      cases o <;> rfl
    rw [applyOps_cons]
    show ((MsgBuffer.extend_inline_data MsgBuffer.new data).bind
        (fun b1 => MsgBuffer.applyOps b1 [])).map (fun b => b.header.msgh_size) =
      some ((sizeOfMessageStart + data.length % 2 ^ 32) % 2 ^ 32)
    rw [hnil]
    exact extend_inline_data_size MsgBuffer.new data [] (by decide)
  have hdesc : opsDescRecords [MsgOp.extendInline (List.replicate (2 ^ 32) 0)] = [] := rfl
  have hlen : (opsInlineBytes [MsgOp.extendInline (List.replicate (2 ^ 32) 0)]).length
      = 2 ^ 32 := by
    show (List.replicate (2 ^ 32) (0 : Nat) ++ []).length = 2 ^ 32
    rw [List.append_nil, List.length_replicate]
  constructor
  · rw [hgen (List.replicate (2 ^ 32) 0), List.length_replicate, Nat.mod_self,
      Nat.add_zero]
    norm_num [sizeOfMessageStart]
  · rw [hdesc, hlen]
    intro hcontra
    rw [Option.some.injEq] at hcontra
    norm_num [sizeOfMessageStart] at hcontra

/-- `inline_data` depends only on the content bytes, the descriptor count and
the size field. -/
theorem inline_data_congr {b1 b : MsgBuffer} (h1 : b1.rest = b.rest)
    (h2 : b1.msgh_descriptor_count = b.msgh_descriptor_count)
    (h3 : b1.header.msgh_size = b.header.msgh_size) :
    Msg.inline_data b1 = Msg.inline_data b := by
  unfold Msg.inline_data Msg.descriptors_byte_len Msg.descriptors
  rw [h1, h2, h3]

/-- A successful chain walk only reads the bytes it consumed, so appending
bytes at the end of the buffer does not disturb it. -/
theorem descChain_append_extra :
    ∀ (n : Nat) (bytes extra : List Nat) (l : List (List Nat)),
    descChain n bytes = some l → descChain n (bytes ++ extra) = some l := by
  intro n
  induction n with
  | zero =>
    intro bytes extra l h
    simpa [descChain] using h
  | succ m ih =>
    intro bytes extra l h
    unfold descChain at h ⊢
    cases hsz : MsgDescriptor.size bytes with
    | none =>
      simp [hsz] at h
    | some sz =>
      simp only [hsz] at h
      by_cases hle : sz ≤ bytes.length
      · rw [if_pos hle] at h
        cases hch : descChain m (bytes.drop sz) with
        | none =>
          simp [hch] at h
        | some tail =>
          simp only [hch] at h
          have h11 : 11 < bytes.length := by
            unfold MsgDescriptor.size MsgDescriptor.type_ at hsz
            cases hb11 : bytes[11]? with
            | none => rw [hb11] at hsz; simp at hsz
            | some v => exact (List.getElem?_eq_some.mp hb11).1
          have hsz2 : MsgDescriptor.size (bytes ++ extra) = some sz := by
            have htype : MsgDescriptor.type_ (bytes ++ extra) = MsgDescriptor.type_ bytes := by
              unfold MsgDescriptor.type_
              rw [List.getElem?_append_left h11]
            unfold MsgDescriptor.size at hsz ⊢
            rw [htype]
            exact hsz
          simp only [hsz2]
          have hle2 : sz ≤ (bytes ++ extra).length := by
            rw [List.length_append]
            omega
          rw [if_pos hle2]
          have hdrop2 : (bytes ++ extra).drop sz = bytes.drop sz ++ extra := by
            rw [List.drop_append_eq_append_drop, Nat.sub_eq_zero_of_le hle, List.drop_zero]
          have htake2 : (bytes ++ extra).take sz = bytes.take sz := by
            rw [List.take_append_eq_append_take, Nat.sub_eq_zero_of_le hle, List.take_zero,
              List.append_nil]
          rw [hdrop2, htake2]
          simp only [ih (bytes.drop sz) extra tail hch]
          simpa using h
      · rw [if_neg hle] at h
        exact absurd h (by simp)

/-- What a successful `inline_data` read implies about the buffer. -/
theorem inline_data_some_facts {b : MsgBuffer} {inl : List Nat}
    (h : Msg.inline_data b = some inl) :
    ∃ dbl, Msg.descriptors_byte_len b = some dbl ∧
      sizeOfMessageStart + dbl ≤ b.header.msgh_size ∧
      b.header.msgh_size ≤ sizeOfMessageStart + b.rest.length ∧
      inl.length = b.header.msgh_size - (sizeOfMessageStart + dbl) := by
  unfold Msg.inline_data at h
  cases hd : Msg.descriptors_byte_len b with
  | none =>
    simp [hd] at h
  | some dbl =>
    simp only [hd] at h
    by_cases hg : sizeOfMessageStart + dbl ≤ b.header.msgh_size ∧
        b.header.msgh_size ≤ sizeOfMessageStart + b.rest.length
    · rw [if_pos hg] at h
      rw [Option.some.injEq] at h
      refine ⟨dbl, rfl, hg.1, hg.2, ?_⟩
      rw [← h, List.length_take, List.length_drop]
      have := hg.1
      have := hg.2
      omega
    · rw [if_neg hg] at h
      simp at h

/-- A run of `extend_inline_data` calls whose total length fits under the
inline high-water mark leaves the allocation and both high-water marks
untouched: no step takes the grow branch. -/
theorem extendMany_no_realloc :
    ∀ (datas : List (List Nat)) (b b2 : MsgBuffer),
    MsgBuffer.applyOps b (datas.map MsgOp.extendInline) = some b2 →
    (∀ inl, Msg.inline_data b = some inl →
      inl.length + (datas.map List.length).sum ≤ b.capacity_inline) →
    b2.capacity = b.capacity ∧ b2.capacity_inline = b.capacity_inline ∧
    b2.capacity_descriptors = b.capacity_descriptors := by
  intro datas
  induction datas with
  | nil =>
    intro b b2 h _
    obtain rfl : b = b2 := by simpa [MsgBuffer.applyOps] using h
    exact ⟨rfl, rfl, rfl⟩
  | cons data tl ih =>
    intro b b2 h hcap
    rw [List.map_cons, applyOps_cons] at h
    cases hext : MsgBuffer.extend_inline_data b data with
    | none =>
      rw [show MsgBuffer.applyOp b (MsgOp.extendInline data) =
        MsgBuffer.extend_inline_data b data from rfl, hext] at h
      simp at h
    | some b1 =>
      rw [show MsgBuffer.applyOp b (MsgOp.extendInline data) =
        MsgBuffer.extend_inline_data b data from rfl, hext, Option.some_bind] at h
      unfold MsgBuffer.extend_inline_data at hext
      cases hinl : Msg.inline_data b with
      | none =>
        simp [hinl] at hext
      | some inl =>
        simp only [hinl] at hext
        have hcap1 : inl.length + (data.length + (tl.map List.length).sum)
            ≤ b.capacity_inline := by
          have := hcap inl hinl
          simpa [List.map_cons, List.sum_cons] using this
        have hnotlt : ¬ b.capacity_inline < inl.length + data.length := by omega
        rw [if_neg hnotlt, Option.some.injEq] at hext
        obtain ⟨dbl0, hdbl0, hg01, hg02, hlen0⟩ := inline_data_some_facts hinl
        have hb1rest : b1.rest = b.rest ++ data := by rw [← hext]
        have hb1count : b1.msgh_descriptor_count = b.msgh_descriptor_count := by
          rw [← hext]
        have hb1size : b1.header.msgh_size =
            (b.header.msgh_size + data.length % 2 ^ 32) % 2 ^ 32 := by
          rw [← hext]
        have hb1cap : b1.capacity = b.capacity := by rw [← hext]
        have hb1ci : b1.capacity_inline = b.capacity_inline := by rw [← hext]
        have hb1cd : b1.capacity_descriptors = b.capacity_descriptors := by rw [← hext]
        have hdblB1 : Msg.descriptors_byte_len b1 = some dbl0 := by
          unfold Msg.descriptors_byte_len Msg.descriptors at hdbl0 ⊢
          obtain ⟨l, hl, hsum⟩ := Option.map_eq_some'.mp hdbl0
          rw [hb1count, hb1rest, descChain_append_extra _ _ _ _ hl]
          simp [hsum]
        have hstep : ∀ inl1, Msg.inline_data b1 = some inl1 →
            inl1.length + (tl.map List.length).sum ≤ b1.capacity_inline := by
          intro inl1 hinl1
          obtain ⟨dbl, hdbl, hg1, hg2, hlen⟩ := inline_data_some_facts hinl1
          have hdbl_eq : dbl = dbl0 := by
            rw [hdblB1, Option.some.injEq] at hdbl
            exact hdbl.symm
          have hszle : b1.header.msgh_size ≤ b.header.msgh_size + data.length := by
            rw [hb1size]
            calc (b.header.msgh_size + data.length % 2 ^ 32) % 2 ^ 32
                ≤ b.header.msgh_size + data.length % 2 ^ 32 := Nat.mod_le _ _
              _ ≤ b.header.msgh_size + data.length :=
                  Nat.add_le_add_left (Nat.mod_le _ _) _
          rw [hb1ci]
          subst hdbl_eq
          omega
        obtain ⟨hc1, hc2, hc3⟩ := ih b1 b2 h hstep
        exact ⟨hc1.trans hb1cap, hc2.trans hb1ci, hc3.trans hb1cd⟩

/-- C9.  After `reserve_inline_data(n)`, any run of `extend_inline_data` calls
totalling at most `n` bytes never reallocates: the buffer capacity and the
inline high-water mark are unchanged across the run.  Moreover, the two
tracked high-water marks never decrease under any single operation. -/
theorem reserve_then_extend_no_realloc :
    (∀ (b : MsgBuffer) (n : Nat) (datas : List (List Nat)) (b1 b2 : MsgBuffer),
      MsgBuffer.reserve_inline_data b n = some b1 →
      (datas.map List.length).sum ≤ n →
      MsgBuffer.applyOps b1 (datas.map MsgOp.extendInline) = some b2 →
      b2.capacity = b1.capacity ∧ b2.capacity_inline = b1.capacity_inline) ∧
    (∀ (b : MsgBuffer) (op : MsgOp) (b1 : MsgBuffer),
      MsgBuffer.applyOp b op = some b1 →
      b.capacity_inline ≤ b1.capacity_inline ∧
      b.capacity_descriptors ≤ b1.capacity_descriptors) := by
  constructor
  · intro b n datas b1 b2 hres hsum hops
    unfold MsgBuffer.reserve_inline_data at hres
    cases hinl : Msg.inline_data b with
    | none => simp [hinl] at hres
    | some inl =>
      simp only [hinl] at hres
      have hfacts : b1.rest = b.rest ∧ b1.msgh_descriptor_count = b.msgh_descriptor_count ∧
          b1.header.msgh_size = b.header.msgh_size ∧
          inl.length + n ≤ b1.capacity_inline := by
        split at hres
        · rw [Option.some.injEq] at hres
          refine ⟨by rw [← hres]; simp, by rw [← hres]; simp, by rw [← hres]; simp, ?_⟩
          rw [← hres]
          simp
        · rw [Option.some.injEq] at hres
          rename_i hcond
          exact ⟨by rw [← hres], by rw [← hres], by rw [← hres], by rw [← hres]; omega⟩
      obtain ⟨hr, hc, hs, hcap⟩ := hfacts
      have hinl1 : Msg.inline_data b1 = some inl := by
        rw [inline_data_congr hr hc hs]
        exact hinl
      have := extendMany_no_realloc datas b1 b2 hops (by
        intro inl1 hinl1x
        rw [hinl1, Option.some.injEq] at hinl1x
        subst hinl1x
        omega)
      exact ⟨this.1, this.2.1⟩
  · intro b op b1 h
    cases op with
    | extendInline data =>
      change MsgBuffer.extend_inline_data b data = some b1 at h
      unfold MsgBuffer.extend_inline_data at h
      cases hinl : Msg.inline_data b with
      | none => simp [hinl] at h
      | some inl =>
        simp only [hinl] at h
        rw [Option.some.injEq] at h
        split at h
        · rename_i hcond
          constructor
          · rw [← h]
            simp
            omega
          · rw [← h]
            simp
        · constructor
          · rw [← h]
          · rw [← h]
    | copyRight mode port =>
      change MsgBuffer.copy_right_raw b mode port = some b1 at h
      unfold MsgBuffer.copy_right_raw MsgBuffer.append_descriptor at h
      cases hdbl : Msg.descriptors_byte_len b with
      | none => simp [hdbl] at h
      | some dbl =>
        simp only [hdbl] at h
        split at h
        · rename_i hcond
          rw [Option.some.injEq] at h
          constructor
          · rw [← h]
            simp
          · rw [← h]
            simp
            omega
        · rw [Option.some.injEq] at h
          exact ⟨by rw [← h], by rw [← h]⟩
    | moveRight mode port =>
      change MsgBuffer.move_right_raw b mode port = some b1 at h
      unfold MsgBuffer.move_right_raw MsgBuffer.append_descriptor at h
      cases hdbl : Msg.descriptors_byte_len b with
      | none => simp [hdbl] at h
      | some dbl =>
        simp only [hdbl] at h
        split at h
        · rename_i hcond
          rw [Option.some.injEq] at h
          constructor
          · rw [← h]
            simp
          · rw [← h]
            simp
            omega
        · rw [Option.some.injEq] at h
          exact ⟨by rw [← h], by rw [← h]⟩
    | reserveInline n =>
      change MsgBuffer.reserve_inline_data b n = some b1 at h
      unfold MsgBuffer.reserve_inline_data at h
      cases hinl : Msg.inline_data b with
      | none => simp [hinl] at h
      | some inl =>
        simp only [hinl] at h
        split at h
        · rename_i hcond
          rw [Option.some.injEq] at h
          constructor
          · rw [← h]
            simp
            omega
          · rw [← h]
            simp
        · rw [Option.some.injEq] at h
          exact ⟨by rw [← h], by rw [← h]⟩
    | reserveDescriptors n =>
      change some (MsgBuffer.reserve_descriptors b n) = some b1 at h
      rw [Option.some.injEq] at h
      unfold MsgBuffer.reserve_descriptors at h
      split at h
      · rename_i hcond
        constructor
        · rw [← h]
          simp
        · rw [← h]
          simp
          omega
      · exact ⟨by rw [← h], by rw [← h]⟩

/-- Concrete buffer after reserving 4 inline bytes on a fresh buffer. -/
def c9buf1 : MsgBuffer :=
  (MsgBuffer.reserve_inline_data MsgBuffer.new 4).getD MsgBuffer.new

/-- Concrete buffer after then extending with two one-byte chunks. -/
def c9buf2 : MsgBuffer :=
  (MsgBuffer.applyOps c9buf1 ([[1], [2]].map MsgOp.extendInline)).getD MsgBuffer.new

/-- Witness for C9 at a concrete reservation and extension run. -/
theorem reserve_then_extend_no_realloc_witness :
    MsgBuffer.reserve_inline_data MsgBuffer.new 4 = some c9buf1 ∧
    MsgBuffer.applyOps c9buf1 ([[1], [2]].map MsgOp.extendInline) = some c9buf2 ∧
    c9buf2.capacity = c9buf1.capacity :=
  ⟨by decide, by decide,
    (reserve_then_extend_no_realloc.1 MsgBuffer.new 4 [[1], [2]] c9buf1 c9buf2
      (by decide) (by decide) (by decide)).1⟩
